import Mathlib

set_option linter.unusedVariables false

/-!
Shallow embedding of the souffle provenance clause translator
(src/ast2ram/ProvenanceClauseTranslator.cpp) together with the interfaces it
consumes.  AST and RAM node kinds are modelled as inductive types; the
translator functions follow the C++ member functions line by line, with the
C++ assertions rendered as Except errors and the mutable valueIndex member
rendered as explicit state on a Translator record.
-/

namespace Souffle

/-- Arguments of atoms (ast::Argument): a variable reference or a signed
numeric constant. -/
inductive Arg where
  | var (name : String)
  | num (value : Int)
deriving DecidableEq

/-- An atom (ast::Atom): a relation name applied to a list of arguments. -/
structure Atom where
  name : String
  args : List Arg
deriving DecidableEq

/-- Arity of an atom (ast::Atom::getArity): the number of arguments. -/
def Atom.getArity (a : Atom) : Nat := a.args.length

/-- Body literals (ast::Literal): positive atoms, negated atoms and binary
constraints carry argument values; boolean constraints carry none and fall
through the dynamic-cast chain of the translator. -/
inductive Literal where
  | atom (a : Atom)
  | neg (a : Atom)
  | binaryConstraint (op : String) (lhs rhs : Arg)
  | boolConstraint (value : Bool)
deriving DecidableEq

/-- A clause (ast::Clause): a head atom plus ordered body literals. -/
structure Clause where
  head : Atom
  body : List Literal
deriving DecidableEq

/-- RAM expressions (ram::Expression) produced by value lowering. -/
inductive Expr where
  | tupleElement (level : Nat) (col : Nat)
  | signedConstant (value : Int)
  | undef
  | unboundError (name : String)
deriving DecidableEq

/-- RAM conditions (ram::Condition). -/
inductive RamCondition where
  | existenceCheck (rel : String) (values : List Expr)
  | provenanceExistenceCheck (rel : String) (values : List Expr)
  | negation (cond : RamCondition)
deriving DecidableEq

/-- RAM operations (ram::Operation). -/
inductive RamOperation where
  | subroutineReturn (values : List Expr)
  | filter (cond : RamCondition) (inner : RamOperation)
  | project (rel : String) (values : List Expr)
  | scan (rel : String) (inner : RamOperation)
deriving DecidableEq

/-- RAM statements (ram::Statement); the translator emits query nodes. -/
inductive RamStatement where
  | query (op : RamOperation)
deriving DecidableEq

/-- Decidable equality for translation results. -/
instance exceptDecEq {ε α : Type} [DecidableEq ε] [DecidableEq α] :
    DecidableEq (Except ε α) := fun x y =>
  match x, y with
  | .ok a, .ok b => if h : a = b then isTrue (by rw [h]) else isFalse (by simp [h])
  | .error a, .error b => if h : a = b then isTrue (by rw [h]) else isFalse (by simp [h])
  | .ok _, .error _ => isFalse (by simp)
  | .error _, .ok _ => isFalse (by simp)

/-- Modelled from the spec: the symbol/string interning table, an opaque
external service referenced but not owned by the translator. -/
structure SymbolTable where
  entries : List String
deriving DecidableEq

/-- Modelled from the spec: the value-location index (ast2ram::ValueIndex),
mapping a variable to the operation-tree location (literal level, column
offset) where its value becomes available. -/
structure ValueIndex where
  bindings : List (String × Nat × Nat)
deriving DecidableEq

/-- The empty value index, as freshly constructed by mk of ValueIndex. -/
def ValueIndex.empty : ValueIndex := ⟨[]⟩

/-- Look up the recorded location of a variable, if bound. -/
def ValueIndex.lookup (idx : ValueIndex) (v : String) : Option (Nat × Nat) :=
  (idx.bindings.find? (fun b => b.1 == v)).map (fun b => b.2)

/-- Record a first-seen binding; repeated occurrences never rebind. -/
def ValueIndex.bindVar (idx : ValueIndex) (v : String) (loc : Nat × Nat) : ValueIndex :=
  if (idx.lookup v).isSome then idx else ⟨idx.bindings ++ [(v, loc)]⟩

/-- The read-only translation context (ast2ram::TranslatorContext).  The
per-relation auxiliary arity is the getEvaluationArity field; the
recursive-relation flag (the isRecursive method of the translator) and the
global provenance mode flag (Global::config().has("provenance")) are modelled
as explicit fields, per the external-interface section of the spec. -/
structure TranslatorContext where
  getEvaluationArity : Atom → Nat
  isRecursive : Bool
  provenance : Bool

/-- Translator state: the context and symbol table members plus the mutable
valueIndex member of ClauseTranslator, threaded explicitly. -/
structure Translator where
  context : TranslatorContext
  symbolTable : SymbolTable
  valueIndex : ValueIndex

/-- A freshly constructed translator, as built inside generateClause: the
valueIndex member starts empty. -/
def freshTranslator (context : TranslatorContext) (symbolTable : SymbolTable) : Translator :=
  ⟨context, symbolTable, ValueIndex.empty⟩

/-- Modelled from the spec: ValueTranslator::translate (ast2ram/ValueTranslator.cpp
is not part of this extract).  A variable lowers to the tuple element recorded
in the value index; an unbound lookup is a fatal invariant violation, marked
here by a dedicated error node; a numeric constant lowers to a signed
constant. -/
def ValueTranslator.translate (context : TranslatorContext) (symbolTable : SymbolTable)
    (valueIndex : ValueIndex) (arg : Arg) : Expr :=
  match arg with
  | .var v =>
      match valueIndex.lookup v with
      | some loc => .tupleElement loc.1 loc.2
      | none => .unboundError v
  | .num n => .signedConstant n

/-- Modelled from the spec: relation-name resolution (getConcreteRelationName
of ast2ram/utility/Utils.cpp, not part of this extract), an external
collaborator mapping a qualified name to a concrete relation name; modelled as
the identity. -/
def getConcreteRelationName (name : String) : String := name

/-- Modelled from the spec: name of the delta relation used on the delta path
of semi-naive evaluation (getDeltaRelationName of ast2ram/utility/Utils.cpp,
not part of this extract). -/
def getDeltaRelationName (name : String) : String := "@delta_" ++ name

/-- Modelled from the spec: facts are clauses with an empty body
(isFact of ast/utility/Utils.cpp, not part of this extract). -/
def isFact (c : Clause) : Bool := c.body.isEmpty

/-- Modelled from the spec: rules are clauses with a non-empty body
(isRule of ast/utility/Utils.cpp, not part of this extract). -/
def isRule (c : Clause) : Bool := !c.body.isEmpty

/-- Modelled from the spec: one step of clause indexing, binding every
variable of one atom at its first appearance to that atom's level and the
column offset of the occurrence. -/
def indexAtom (idx : ValueIndex) (level : Nat) (a : Atom) : ValueIndex :=
  a.args.enum.foldl (fun idx p =>
    match p.2 with
    | .var v => idx.bindVar v (level, p.1)
    | .num _ => idx) idx

/-- Modelled from the spec: ClauseTranslator::indexClause (the base translator
is not part of this extract) binds every variable at its first appearance in
body-literal order; the version number selects delta relations downstream and
does not affect the recorded locations. -/
def indexClause (clause : Clause) (version : Nat) : ValueIndex :=
  clause.body.enum.foldl (fun idx p =>
    match p.2 with
    | .atom a => indexAtom idx p.1 a
    | _ => idx) ValueIndex.empty

/-- Modelled from the spec: the base ClauseTranslator::addNegate (the base
translator is not part of this extract) wraps the inner operation in a filter
over the negation of a plain existence check on the atom relation (the delta
relation when isDelta is set), lowering the atom non-auxiliary argument
values; auxiliary arity above the atom arity is a fatal invariant violation,
rendered as an error. -/
def ClauseTranslator.addNegate (t : Translator) (atom : Atom) (op : RamOperation)
    (isDelta : Bool) : Except String RamOperation :=
  let auxiliaryArity := t.context.getEvaluationArity atom
  if auxiliaryArity ≤ atom.getArity then
    let arity := atom.getArity - auxiliaryArity
    let relName := if isDelta then getDeltaRelationName atom.name
                   else getConcreteRelationName atom.name
    let values := (atom.args.take arity).map
      (ValueTranslator.translate t.context t.symbolTable t.valueIndex)
    .ok (.filter (.negation (.existenceCheck relName values)) op)
  else
    .error "auxiliary arity out of bounds"

/-- ProvenanceClauseTranslator::addNegate: the delta path defers to the base
translator; otherwise a provenance existence check is built from the lowered
non-auxiliary argument values, extended - when the global provenance mode is
set - by an undefined value for the rule number and the lowered height values
at positions arity + 1 through arity + auxiliaryArity - 1.  The assertion that
the auxiliary arity is in bounds is rendered as an error. -/
def ProvenanceClauseTranslator.addNegate (t : Translator) (atom : Atom)
    (op : RamOperation) (isDelta : Bool) : Except String RamOperation :=
  if isDelta then
    ClauseTranslator.addNegate t atom op isDelta
  else
    let auxiliaryArity := t.context.getEvaluationArity atom
    if auxiliaryArity ≤ atom.getArity then
      let arity := atom.getArity - auxiliaryArity
      let values := (atom.args.take arity).map
        (ValueTranslator.translate t.context t.symbolTable t.valueIndex)
      let values :=
        if t.context.provenance then
          values ++ [Expr.undef] ++
            ((List.range' 1 (auxiliaryArity - 1)).map fun height =>
              ValueTranslator.translate t.context t.symbolTable t.valueIndex
                (atom.args.getD (arity + height) (Arg.num 0)))
        else values
      .ok (.filter (.negation (.provenanceExistenceCheck
        (getConcreteRelationName atom.name) values)) op)
    else
      .error "auxiliary arity out of bounds"

/-- ProvenanceClauseTranslator::createValueSubroutine: collects, in
body-literal order, the lowered values of all positive-atom arguments,
negated-atom arguments and binary-constraint operands; for a recursive
relation the lowered non-auxiliary head argument values and one sentinel -1
per auxiliary column are appended.  Returns them in a subroutine-return
node. -/
def ProvenanceClauseTranslator.createValueSubroutine (t : Translator) (clause : Clause) :
    RamOperation :=
  let values := clause.body.foldl (fun values lit =>
    match lit with
    | .atom a => values ++ a.args.map
        (ValueTranslator.translate t.context t.symbolTable t.valueIndex)
    | .neg a => values ++ a.args.map
        (ValueTranslator.translate t.context t.symbolTable t.valueIndex)
    | .binaryConstraint _ lhs rhs => values ++
        [ValueTranslator.translate t.context t.symbolTable t.valueIndex lhs,
         ValueTranslator.translate t.context t.symbolTable t.valueIndex rhs]
    | .boolConstraint _ => values) []
  let values :=
    if t.context.isRecursive then
      let head := clause.head
      let auxiliaryArity := t.context.getEvaluationArity head
      values ++
        ((List.range (head.args.length - auxiliaryArity)).map fun i =>
          ValueTranslator.translate t.context t.symbolTable t.valueIndex
            (head.args.getD i (Arg.num 0))) ++
        ((List.range auxiliaryArity).map fun _ => Expr.signedConstant (-1))
    else values
  .subroutineReturn values

/-- ProvenanceClauseTranslator::createRamFactQuery: asserts that the clause is
a fact of a non-recursive relation (both assertions rendered as errors), then
emits a query around the value subroutine instead of a direct insertion. -/
def ProvenanceClauseTranslator.createRamFactQuery (t : Translator) (clause : Clause) :
    Except String RamStatement :=
  if isFact clause then
    if t.context.isRecursive then .error "recursive clauses cannot have facts"
    else .ok (.query (ProvenanceClauseTranslator.createValueSubroutine t clause))
  else .error "clause should be fact"

/-- Modelled from the spec: the four base-translator composition stages called
by createRamRuleQuery (addVariableBindingConstraints, addBodyLiteralConstraints,
addGeneratorLevels, addVariableIntroductions); their bodies live in the base
ClauseTranslator, outside this extract, so they are kept as parameters of the
embedding. -/
structure BaseStages where
  addVariableBindingConstraints : Translator → RamOperation → RamOperation
  addBodyLiteralConstraints : Translator → Clause → RamOperation → RamOperation
  addGeneratorLevels : Translator → RamOperation → Clause → RamOperation
  addVariableIntroductions : Translator → Clause → Nat → RamOperation → RamOperation

/-- ProvenanceClauseTranslator::createRamRuleQuery: asserts that the clause is
a rule (rendered as an error), overwrites the valueIndex member with a freshly
built index of the clause, then composes the operation bottom-up from the
value subroutine through the four base stages and encloses it in a query. -/
def ProvenanceClauseTranslator.createRamRuleQuery (S : BaseStages) (t : Translator)
    (clause : Clause) (version : Nat) : Except String RamStatement :=
  if isRule clause then
    let t := { t with valueIndex := indexClause clause version }
    let op := ProvenanceClauseTranslator.createValueSubroutine t clause
    let op := S.addVariableBindingConstraints t op
    let op := S.addBodyLiteralConstraints t clause op
    let op := S.addGeneratorLevels t op clause
    let op := S.addVariableIntroductions t clause version op
    .ok (.query op)
  else .error "clause should be rule"

/-- Modelled from the spec: ClauseTranslator::translateClause (the base
translator is not part of this extract), the single entry point, dispatches
facts to createRamFactQuery and rules to createRamRuleQuery. -/
def ProvenanceClauseTranslator.translateClause (S : BaseStages) (t : Translator)
    (clause : Clause) (version : Nat) : Except String RamStatement :=
  if isFact clause then ProvenanceClauseTranslator.createRamFactQuery t clause
  else ProvenanceClauseTranslator.createRamRuleQuery S t clause version

/-- ProvenanceClauseTranslator::generateClause: constructs a fresh translator
over the given context and symbol table and translates the clause. -/
def ProvenanceClauseTranslator.generateClause (S : BaseStages) (context : TranslatorContext)
    (symbolTable : SymbolTable) (clause : Clause) (version : Nat) :
    Except String RamStatement :=
  ProvenanceClauseTranslator.translateClause S (freshTranslator context symbolTable)
    clause version

/-- Per-literal contribution of the value subroutine, in body-literal order:
all lowered atom arguments, all lowered negated-atom arguments, and the
lowered left and right operands of a binary constraint. -/
def literalValues (tr : Arg → Expr) : Literal → List Expr
  | .atom a => a.args.map tr
  | .neg a => a.args.map tr
  | .binaryConstraint _ lhs rhs => [tr lhs, tr rhs]
  | .boolConstraint _ => []

/-- Concrete context for witnesses: zero auxiliary columns, non-recursive
relation, provenance mode on. -/
def edgeContext : TranslatorContext := ⟨fun _ => 0, false, true⟩

/-- The fact edge(1,2). of the provenance-fact scenario. -/
def edgeFact : Clause := ⟨⟨"edge", [Arg.num 1, Arg.num 2]⟩, []⟩

/-- Translator freshly built over edgeContext. -/
def edgeTranslator : Translator := freshTranslator edgeContext ⟨[]⟩

/-- Concrete context for witnesses: one auxiliary column per atom, recursive
relation, provenance mode on. -/
def recContext : TranslatorContext := ⟨fun _ => 1, true, true⟩

/-- Translator freshly built over recContext. -/
def recTranslator : Translator := freshTranslator recContext ⟨[]⟩

/-- Concrete recursive rule r(x, h) :- s(x, h), where h is the auxiliary
height column. -/
def recRule : Clause :=
  ⟨⟨"r", [Arg.var "x", Arg.var "h"]⟩, [Literal.atom ⟨"s", [Arg.var "x", Arg.var "h"]⟩]⟩

/-- Concrete negated atom t(3, 4) used by witnesses. -/
def negAtom : Atom := ⟨"t", [Arg.num 3, Arg.num 4]⟩

/-- Concrete context for witnesses: one auxiliary column per atom, provenance
mode off. -/
def offContext : TranslatorContext := ⟨fun _ => 1, false, false⟩

/-- Translator freshly built over offContext. -/
def offTranslator : Translator := freshTranslator offContext ⟨[]⟩

/-- Identity stage implementations standing in for the base stages in
witnesses. -/
def idStages : BaseStages :=
  ⟨fun _ op => op, fun _ _ op => op, fun _ op _ => op, fun _ _ _ op => op⟩

/-- A translator sharing context and symbol table with recTranslator but
carrying a stale value index from an earlier translation. -/
def staleTranslator : Translator :=
  { recTranslator with valueIndex := ⟨[("x", 5, 7)]⟩ }

lemma range_map_const {β : Type} (c : β) (k : Nat) :
    (List.range k).map (fun _ => c) = List.replicate k c := by
  simp [List.map_const', List.length_range]

lemma map_getD_range' {α β : Type} (f : α → β) (d : α) (l : List α) :
    ∀ (k a s : Nat), s + a + k ≤ l.length →
      (List.range' a k).map (fun i => f (l.getD (s + i) d)) =
        ((l.drop (s + a)).take k).map f := by
  intro k
  induction k with
  | zero => intro a s h; simp
  | succ k ih =>
    intro a s h
    have hlt : s + a < l.length := by omega
    rw [List.range'_succ, List.drop_eq_getElem_cons hlt]
    simp only [List.map_cons, List.take_succ_cons]
    rw [List.getD_eq_getElem l d hlt]
    have h2 := ih (a + 1) s (by omega)
    rw [show s + (a + 1) = s + a + 1 by omega] at h2
    rw [h2]

lemma map_getD_range {α β : Type} (f : α → β) (d : α) (l : List α) (k : Nat)
    (h : k ≤ l.length) :
    (List.range k).map (fun i => f (l.getD i d)) = (l.take k).map f := by
  have h2 := map_getD_range' f d l k 0 0 (by omega)
  rw [List.range_eq_range']
  simpa using h2

lemma foldl_literalValues (tr : Arg → Expr) :
    ∀ (body : List Literal) (acc : List Expr),
      body.foldl (fun values lit =>
        match lit with
        | .atom a => values ++ a.args.map tr
        | .neg a => values ++ a.args.map tr
        | .binaryConstraint _ lhs rhs => values ++ [tr lhs, tr rhs]
        | .boolConstraint _ => values) acc = acc ++ body.flatMap (literalValues tr) := by
  intro body
  induction body with
  | nil => intro acc; simp
  | cons lit rest ih =>
    intro acc
    cases lit <;> simp [literalValues, ih, List.append_assoc]

lemma addNegate_nonDelta_eq (t : Translator) (atom : Atom) (op : RamOperation)
    (h : t.context.getEvaluationArity atom ≤ atom.getArity) :
    ProvenanceClauseTranslator.addNegate t atom op false =
      .ok (.filter (.negation (.provenanceExistenceCheck (getConcreteRelationName atom.name)
        ((atom.args.take (atom.getArity - t.context.getEvaluationArity atom)).map
            (ValueTranslator.translate t.context t.symbolTable t.valueIndex) ++
          (if t.context.provenance then
            Expr.undef ::
              ((atom.args.drop (atom.getArity - t.context.getEvaluationArity atom + 1)).map
                (ValueTranslator.translate t.context t.symbolTable t.valueIndex))
          else [])))) op) := by
  unfold ProvenanceClauseTranslator.addNegate
  simp only [Bool.false_eq_true, if_false, if_pos h]
  cases hp : t.context.provenance with
  | false => simp [hp]
  | true =>
    simp only [hp, if_pos]
    cases haux : t.context.getEvaluationArity atom with
    | zero =>
      have hd : atom.args.drop (atom.getArity - 0 + 1) = [] := by
        apply List.drop_eq_nil_of_le
        simp only [Atom.getArity]
        omega
      simp only [hd]
      simp
    | succ m =>
      rw [show m + 1 - 1 = m by omega]
      have hb : (atom.getArity - (m + 1)) + 1 + m ≤ atom.args.length := by
        rw [haux] at h
        simp only [Atom.getArity] at h ⊢
        omega
      have hr := map_getD_range'
        (ValueTranslator.translate t.context t.symbolTable t.valueIndex) (Arg.num 0)
        atom.args m 1 (atom.getArity - (m + 1)) hb
      rw [hr]
      have hlen : (atom.args.drop (atom.getArity - (m + 1) + 1)).length = m := by
        rw [List.length_drop]
        rw [haux] at h
        simp only [Atom.getArity] at h ⊢
        omega
      have htake : (atom.args.drop (atom.getArity - (m + 1) + 1)).take m =
          atom.args.drop (atom.getArity - (m + 1) + 1) := by
        apply List.take_of_length_le
        omega
      rw [htake]
      simp [List.append_assoc]

end Souffle
namespace Souffle

/-- Claim C1 counterexample: on the fact edge(1,2). under provenance mode the
emitted subroutine returns the empty value list, not the lowered
head-argument values [1, 2]. -/
theorem fact_query_head_values_cex :
    ProvenanceClauseTranslator.createRamFactQuery edgeTranslator edgeFact =
      .ok (.query (.subroutineReturn [])) ∧
    ProvenanceClauseTranslator.createRamFactQuery edgeTranslator edgeFact ≠
      .ok (.query (.subroutineReturn (edgeFact.head.args.map
        (ValueTranslator.translate edgeTranslator.context edgeTranslator.symbolTable
          edgeTranslator.valueIndex)))) := by
  constructor
  · decide
  · decide

/-- Claim C1 (amended): translated under provenance mode, a clause with an
empty body for a non-recursive relation yields a value-return subroutine whose
value list is the lowered body-literal value list - empty, as a fact has no
body literals - and no direct insertion node is emitted. -/
theorem fact_query_returns_empty_subroutine (t : Translator) (clause : Clause)
    (hf : isFact clause = true) (hr : t.context.isRecursive = false) :
    ProvenanceClauseTranslator.createRamFactQuery t clause =
      .ok (.query (.subroutineReturn [])) := by
  obtain ⟨head, body⟩ := clause
  simp only [isFact, List.isEmpty_iff] at hf
  subst hf
  unfold ProvenanceClauseTranslator.createRamFactQuery
  simp [isFact, hr, ProvenanceClauseTranslator.createValueSubroutine]

/-- Claim C1 witness: the amended fact translation evaluated on edge(1,2). -/
theorem fact_query_returns_empty_subroutine_witness :
    isFact edgeFact = true ∧ edgeTranslator.context.isRecursive = false ∧
    ProvenanceClauseTranslator.createRamFactQuery edgeTranslator edgeFact =
      .ok (.query (.subroutineReturn [])) :=
  ⟨by decide, by decide,
    fact_query_returns_empty_subroutine edgeTranslator edgeFact (by decide) (by decide)⟩

/-- Claim C2: for a negated atom of arity n with auxiliary arity a, the
non-delta negation check lowers the n - a non-auxiliary argument values; with
the global provenance mode off these are all of its values, and with it on an
undefined rule-number value plus the a - 1 lowered height values at argument
positions n - a + 1 through n - 1 follow. -/
theorem negation_check_value_shape (t : Translator) (atom : Atom) (op : RamOperation)
    (h : t.context.getEvaluationArity atom ≤ atom.getArity) :
    ProvenanceClauseTranslator.addNegate t atom op false =
      .ok (.filter (.negation (.provenanceExistenceCheck (getConcreteRelationName atom.name)
        ((atom.args.take (atom.getArity - t.context.getEvaluationArity atom)).map
            (ValueTranslator.translate t.context t.symbolTable t.valueIndex) ++
          (if t.context.provenance then
            Expr.undef ::
              ((atom.args.drop (atom.getArity - t.context.getEvaluationArity atom + 1)).map
                (ValueTranslator.translate t.context t.symbolTable t.valueIndex))
          else [])))) op) ∧
    ((atom.args.take (atom.getArity - t.context.getEvaluationArity atom)).map
        (ValueTranslator.translate t.context t.symbolTable t.valueIndex)).length =
      atom.getArity - t.context.getEvaluationArity atom ∧
    ((atom.args.drop (atom.getArity - t.context.getEvaluationArity atom + 1)).map
        (ValueTranslator.translate t.context t.symbolTable t.valueIndex)).length =
      t.context.getEvaluationArity atom - 1 := by
  refine ⟨addNegate_nonDelta_eq t atom op h, ?_, ?_⟩
  · rw [List.length_map, List.length_take]
    simp only [Atom.getArity] at h ⊢
    omega
  · rw [List.length_map, List.length_drop]
    simp only [Atom.getArity] at h ⊢
    omega

/-- Claim C2 witness: the negation-check shape evaluated on the atom t(3,4)
with auxiliary arity 1 under provenance mode. -/
theorem negation_check_value_shape_witness :
    recTranslator.context.getEvaluationArity negAtom ≤ negAtom.getArity ∧
    ProvenanceClauseTranslator.addNegate recTranslator negAtom (.subroutineReturn []) false =
      .ok (.filter (.negation (.provenanceExistenceCheck "t"
        [Expr.signedConstant 3, Expr.undef])) (.subroutineReturn [])) := by
  refine ⟨by decide, ?_⟩
  have h := (negation_check_value_shape recTranslator negAtom (.subroutineReturn [])
    (by decide)).1
  rw [h]
  decide

/-- Claim C3: with isDelta set, the provenance translator addNegate coincides
with the base translator addNegate on the same arguments: a plain
existence-negation filter on the delta relation, with no provenance existence
check and no placeholder or height values. -/
theorem delta_negate_defers_to_base (t : Translator) (atom : Atom) (op : RamOperation) :
    ProvenanceClauseTranslator.addNegate t atom op true =
      ClauseTranslator.addNegate t atom op true ∧
    (t.context.getEvaluationArity atom ≤ atom.getArity →
      ProvenanceClauseTranslator.addNegate t atom op true =
        .ok (.filter (.negation (.existenceCheck (getDeltaRelationName atom.name)
          ((atom.args.take (atom.getArity - t.context.getEvaluationArity atom)).map
            (ValueTranslator.translate t.context t.symbolTable t.valueIndex)))) op)) := by
  constructor
  · simp [ProvenanceClauseTranslator.addNegate]
  · intro h
    simp [ProvenanceClauseTranslator.addNegate, ClauseTranslator.addNegate, h]

/-- Claim C3 witness: the delta path evaluated on the atom t(3,4). -/
theorem delta_negate_defers_to_base_witness :
    ProvenanceClauseTranslator.addNegate recTranslator negAtom (.subroutineReturn []) true =
      ClauseTranslator.addNegate recTranslator negAtom (.subroutineReturn []) true ∧
    ProvenanceClauseTranslator.addNegate recTranslator negAtom (.subroutineReturn []) true =
      .ok (.filter (.negation (.existenceCheck "@delta_t" [Expr.signedConstant 3]))
        (.subroutineReturn [])) := by
  have h := delta_negate_defers_to_base recTranslator negAtom (.subroutineReturn [])
  refine ⟨h.1, ?_⟩
  rw [h.2 (by decide)]
  decide

/-- Claim C4: createValueSubroutine returns one return node listing, in
body-literal order, the lowered arguments of each positive atom, the lowered
arguments of each negated atom and the lowered left and right operands of each
binary constraint, and exactly for a recursive relation appends the lowered
non-auxiliary head argument values followed by one sentinel -1 per auxiliary
column. -/
theorem value_subroutine_value_list (t : Translator) (clause : Clause)
    (h : t.context.getEvaluationArity clause.head ≤ clause.head.getArity) :
    ProvenanceClauseTranslator.createValueSubroutine t clause =
      .subroutineReturn
        (clause.body.flatMap (literalValues
            (ValueTranslator.translate t.context t.symbolTable t.valueIndex)) ++
          (if t.context.isRecursive then
            (clause.head.args.take
                (clause.head.getArity - t.context.getEvaluationArity clause.head)).map
              (ValueTranslator.translate t.context t.symbolTable t.valueIndex) ++
              List.replicate (t.context.getEvaluationArity clause.head)
                (Expr.signedConstant (-1))
          else [])) := by
  unfold ProvenanceClauseTranslator.createValueSubroutine
  rw [foldl_literalValues]
  cases hrec : t.context.isRecursive with
  | false => simp
  | true =>
    simp only [if_pos]
    rw [map_getD_range _ _ _ _ (by omega)]
    rw [range_map_const]
    simp [Atom.getArity, List.append_assoc]

/-- Claim C4 witness: the value subroutine of the recursive rule
r(x, h) :- s(x, h), indexed fresh, evaluates to the two lowered body values,
the lowered non-auxiliary head value and one sentinel. -/
theorem value_subroutine_value_list_witness :
    recTranslator.context.getEvaluationArity recRule.head ≤ recRule.head.getArity ∧
    ProvenanceClauseTranslator.createValueSubroutine
        { recTranslator with valueIndex := indexClause recRule 0 } recRule =
      .subroutineReturn [Expr.tupleElement 0 0, Expr.tupleElement 0 1,
        Expr.tupleElement 0 0, Expr.signedConstant (-1)] := by
  refine ⟨by decide, ?_⟩
  have h := value_subroutine_value_list
    { recTranslator with valueIndex := indexClause recRule 0 } recRule (by decide)
  rw [h]
  decide

/-- Claim C5: createRamRuleQuery composes the tree strictly bottom-up with the
value-return subroutine innermost - never a head insertion - wrapped by
variable-binding constraints, then body-literal constraints, then generator
levels, then variable introductions, the whole enclosed in one query node. -/
theorem rule_query_bottom_up_composition (S : BaseStages) (t : Translator)
    (clause : Clause) (version : Nat) (h : isRule clause = true) :
    ProvenanceClauseTranslator.createRamRuleQuery S t clause version =
      .ok (.query
        (S.addVariableIntroductions
          { t with valueIndex := indexClause clause version } clause version
          (S.addGeneratorLevels { t with valueIndex := indexClause clause version }
            (S.addBodyLiteralConstraints
              { t with valueIndex := indexClause clause version } clause
              (S.addVariableBindingConstraints
                { t with valueIndex := indexClause clause version }
                (ProvenanceClauseTranslator.createValueSubroutine
                  { t with valueIndex := indexClause clause version } clause)))
            clause))) ∧
    (∃ values, ProvenanceClauseTranslator.createValueSubroutine
        { t with valueIndex := indexClause clause version } clause =
      .subroutineReturn values) ∧
    (∀ rel values, ProvenanceClauseTranslator.createValueSubroutine
        { t with valueIndex := indexClause clause version } clause ≠
      .project rel values) := by
  have hval : ∃ values, ProvenanceClauseTranslator.createValueSubroutine
      { t with valueIndex := indexClause clause version } clause =
        .subroutineReturn values := ⟨_, rfl⟩
  obtain ⟨v, hv⟩ := hval
  refine ⟨?_, ⟨v, hv⟩, ?_⟩
  · unfold ProvenanceClauseTranslator.createRamRuleQuery
    simp [h]
  · intro rel values hEq
    rw [hv] at hEq
    exact RamOperation.noConfusion hEq

/-- Claim C5 witness: the rule query of r(x, h) :- s(x, h) with identity
stages evaluates to a query around the value subroutine. -/
theorem rule_query_bottom_up_composition_witness :
    isRule recRule = true ∧
    ProvenanceClauseTranslator.createRamRuleQuery idStages recTranslator recRule 0 =
      .ok (.query (ProvenanceClauseTranslator.createValueSubroutine
        { recTranslator with valueIndex := indexClause recRule 0 } recRule)) := by
  have h := rule_query_bottom_up_composition idStages recTranslator recRule 0 (by decide)
  refine ⟨by decide, ?_⟩
  rw [h.1]
  decide

/-- Claim C6: the structural preconditions are checked up front with no
recovery path: createRamFactQuery succeeds exactly on facts of non-recursive
relations, createRamRuleQuery succeeds exactly on rules, and the non-delta
addNegate succeeds exactly when the auxiliary arity is at most the atom arity;
in every other case only an error escapes, never a translated node. -/
theorem structural_preconditions_fatal (S : BaseStages) (t : Translator)
    (clause : Clause) (atom : Atom) (op : RamOperation) (version : Nat) :
    ((∃ s, ProvenanceClauseTranslator.createRamFactQuery t clause = .ok s) ↔
      (isFact clause = true ∧ t.context.isRecursive = false)) ∧
    ((∃ s, ProvenanceClauseTranslator.createRamRuleQuery S t clause version = .ok s) ↔
      isRule clause = true) ∧
    ((∃ o, ProvenanceClauseTranslator.addNegate t atom op false = .ok o) ↔
      t.context.getEvaluationArity atom ≤ atom.getArity) := by
  refine ⟨?_, ?_, ?_⟩
  · cases hf : isFact clause <;> cases hr : t.context.isRecursive <;>
      simp [ProvenanceClauseTranslator.createRamFactQuery, hf, hr]
  · cases hrule : isRule clause <;>
      simp [ProvenanceClauseTranslator.createRamRuleQuery, hrule]
  · by_cases ha : t.context.getEvaluationArity atom ≤ atom.getArity <;>
      simp [ProvenanceClauseTranslator.addNegate, ha]

/-- Claim C6 witness: the precondition equivalences evaluated at the concrete
fact, rule-shaped inputs and atom of the other witnesses. -/
theorem structural_preconditions_fatal_witness :
    ((∃ s, ProvenanceClauseTranslator.createRamFactQuery edgeTranslator edgeFact = .ok s) ↔
      (isFact edgeFact = true ∧ edgeTranslator.context.isRecursive = false)) ∧
    ((∃ s, ProvenanceClauseTranslator.createRamRuleQuery idStages edgeTranslator edgeFact 0 =
        .ok s) ↔ isRule edgeFact = true) ∧
    ((∃ o, ProvenanceClauseTranslator.addNegate edgeTranslator negAtom
        (.subroutineReturn []) false = .ok o) ↔
      edgeTranslator.context.getEvaluationArity negAtom ≤ negAtom.getArity) :=
  structural_preconditions_fatal idStages edgeTranslator edgeFact negAtom
    (.subroutineReturn []) 0

/-- Claim C7: translation is deterministic: two translateClause invocations
over the same context, symbol table, clause and version, each through a
freshly built translator with a fresh value index, produce structurally
identical statements, and generateClause is exactly such an invocation. -/
theorem translation_deterministic (S : BaseStages) (context : TranslatorContext)
    (symbolTable : SymbolTable) (clause : Clause) (version : Nat)
    (t₁ t₂ : Translator) (h₁ : t₁ = freshTranslator context symbolTable)
    (h₂ : t₂ = freshTranslator context symbolTable) :
    ProvenanceClauseTranslator.translateClause S t₁ clause version =
      ProvenanceClauseTranslator.translateClause S t₂ clause version ∧
    ProvenanceClauseTranslator.generateClause S context symbolTable clause version =
      ProvenanceClauseTranslator.translateClause S t₁ clause version := by
  subst h₁
  subst h₂
  exact ⟨rfl, rfl⟩

/-- Claim C7 witness: determinism evaluated on the recursive rule. -/
theorem translation_deterministic_witness :
    ProvenanceClauseTranslator.translateClause idStages
        (freshTranslator recContext ⟨[]⟩) recRule 0 =
      ProvenanceClauseTranslator.translateClause idStages
        (freshTranslator recContext ⟨[]⟩) recRule 0 ∧
    ProvenanceClauseTranslator.generateClause idStages recContext ⟨[]⟩ recRule 0 =
      ProvenanceClauseTranslator.translateClause idStages
        (freshTranslator recContext ⟨[]⟩) recRule 0 :=
  translation_deterministic idStages recContext ⟨[]⟩ recRule 0
    (freshTranslator recContext ⟨[]⟩) (freshTranslator recContext ⟨[]⟩) rfl rfl

/-- Claim C8: createRamRuleQuery overwrites the value index with a freshly
built one before indexing the clause, so no variable bindings from an earlier
translation are visible: its result is independent of the value-index state of
the incoming translator. -/
theorem rule_query_fresh_index (S : BaseStages) (t₁ t₂ : Translator) (clause : Clause)
    (version : Nat) (hc : t₁.context = t₂.context)
    (hs : t₁.symbolTable = t₂.symbolTable) :
    ProvenanceClauseTranslator.createRamRuleQuery S t₁ clause version =
      ProvenanceClauseTranslator.createRamRuleQuery S t₂ clause version := by
  unfold ProvenanceClauseTranslator.createRamRuleQuery
  rw [hc, hs]

/-- Claim C8 witness: a translator with a stale index from an earlier clause
translates the rule identically to a fresh one. -/
theorem rule_query_fresh_index_witness :
    staleTranslator.context = recTranslator.context ∧
    staleTranslator.symbolTable = recTranslator.symbolTable ∧
    ProvenanceClauseTranslator.createRamRuleQuery idStages staleTranslator recRule 0 =
      ProvenanceClauseTranslator.createRamRuleQuery idStages recTranslator recRule 0 :=
  ⟨rfl, rfl, rule_query_fresh_index idStages staleTranslator recTranslator recRule 0 rfl rfl⟩

/-- Claim C9: on the non-delta path addNegate always wraps the inner operation
in a filter over the negation of a provenance existence check - never a plain
existence check - whatever the global provenance mode; the mode only selects
whether the rule-number placeholder and height values are appended. -/
theorem non_delta_always_provenance_check (t : Translator) (atom : Atom)
    (op : RamOperation) (h : t.context.getEvaluationArity atom ≤ atom.getArity) :
    ∃ values,
      ProvenanceClauseTranslator.addNegate t atom op false =
        .ok (.filter (.negation (.provenanceExistenceCheck
          (getConcreteRelationName atom.name) values)) op) ∧
      values =
        (atom.args.take (atom.getArity - t.context.getEvaluationArity atom)).map
          (ValueTranslator.translate t.context t.symbolTable t.valueIndex) ++
        (if t.context.provenance then
          Expr.undef ::
            ((atom.args.drop (atom.getArity - t.context.getEvaluationArity atom + 1)).map
              (ValueTranslator.translate t.context t.symbolTable t.valueIndex))
        else []) :=
  ⟨_, addNegate_nonDelta_eq t atom op h, rfl⟩

/-- Claim C9 witness: with the provenance mode off, the non-delta check on
t(3,4) with auxiliary arity 1 is still a provenance existence check, carrying
only the lowered non-auxiliary value. -/
theorem non_delta_always_provenance_check_witness :
    offTranslator.context.getEvaluationArity negAtom ≤ negAtom.getArity ∧
    ∃ values,
      ProvenanceClauseTranslator.addNegate offTranslator negAtom
          (.subroutineReturn []) false =
        .ok (.filter (.negation (.provenanceExistenceCheck "t" values))
          (.subroutineReturn [])) ∧
      values = [Expr.signedConstant 3] := by
  refine ⟨by decide, ?_⟩
  obtain ⟨v, hv, hveq⟩ := non_delta_always_provenance_check offTranslator negAtom
    (.subroutineReturn []) (by decide)
  refine ⟨v, hv, ?_⟩
  rw [hveq]
  decide

/-- Claim C10: with auxiliary arity 0 and the global provenance mode on, the
non-delta check lowers all n argument values and still appends the undefined
rule-number placeholder, producing n + 1 values. -/
theorem zero_aux_provenance_check_values (t : Translator) (atom : Atom)
    (op : RamOperation) (ha : t.context.getEvaluationArity atom = 0)
    (hp : t.context.provenance = true) :
    ProvenanceClauseTranslator.addNegate t atom op false =
      .ok (.filter (.negation (.provenanceExistenceCheck
        (getConcreteRelationName atom.name)
        (atom.args.map (ValueTranslator.translate t.context t.symbolTable t.valueIndex) ++
          [Expr.undef]))) op) ∧
    (atom.args.map (ValueTranslator.translate t.context t.symbolTable t.valueIndex) ++
      [Expr.undef]).length = atom.getArity + 1 := by
  constructor
  · have h := addNegate_nonDelta_eq t atom op (by rw [ha]; omega)
    rw [h, ha, hp]
    have hd : atom.args.drop (atom.getArity - 0 + 1) = [] := by
      apply List.drop_eq_nil_of_le
      simp only [Atom.getArity]
      omega
    have ht : atom.args.take (atom.getArity - 0) = atom.args := by
      apply List.take_of_length_le
      simp only [Atom.getArity]
      omega
    rw [hd, ht]
    simp
  · simp [Atom.getArity]

/-- Claim C10 witness: the zero-auxiliary-arity check on t(3,4) under
provenance mode has three values: both lowered arguments plus the
placeholder. -/
theorem zero_aux_provenance_check_values_witness :
    edgeTranslator.context.getEvaluationArity negAtom = 0 ∧
    edgeTranslator.context.provenance = true ∧
    ProvenanceClauseTranslator.addNegate edgeTranslator negAtom
        (.subroutineReturn []) false =
      .ok (.filter (.negation (.provenanceExistenceCheck "t"
        [Expr.signedConstant 3, Expr.signedConstant 4, Expr.undef]))
        (.subroutineReturn [])) := by
  refine ⟨by decide, by decide, ?_⟩
  have h := (zero_aux_provenance_check_values edgeTranslator negAtom
    (.subroutineReturn []) (by decide) (by decide)).1
  rw [h]
  decide

end Souffle
